import Mathlib

/-!
A verification development for the hypercube ledger engine.

The definitions below are a shallow embedding of the Rust sources:
src/transaction_processor.rs, src/pod.rs, src/transaction.rs,
src/fin_plan_transaction.rs, src/fin_plan_instruction.rs, src/payment_plan.rs.

Modelling conventions:
* machine integers (i64, u64) are Int / Nat; token arithmetic in the source
  uses wrapping two's-complement only on overflow, which no claim exercises,
  so balances are plain Int;
* 32-byte public keys, hashes and 64-byte signatures are abstract atoms,
  modelled as Nat;
* Rust's HashMap is modelled as an association list with lookup / overwriting
  insert / remove (only lookup behaviour is observable in the source);
* VecDeque is a List with the front at the head;
* fallible code returns RResult, mirroring Result<T, TransactionProcessorError>.
-/

namespace Hypercube

/-- Modelled from the spec: 32-byte public key / program id
(xpz_program_interface::pubkey::Pubkey, crate not under src/); an abstract
atom with decidable equality, here Nat. -/
abbrev Pubkey := Nat

/-- Modelled from the spec: SHA-256 digest (hash.rs is not under src/); an
abstract atom with decidable equality, here Nat. -/
abbrev Hash := Nat

/-- Modelled from the spec: 64-byte Ed25519 signature (signature.rs is not
under src/); an abstract atom with decidable equality, here Nat. -/
abbrev Signature := Nat

/-- Modelled from the spec: xpz_program_interface::account::Account (crate not
under src/). Shape { balance/tokens, owner program id, opaque state bytes }
taken from spec section 3 and the field uses in transaction_processor.rs. -/
structure Account where
  tokens : Int
  program_id : Nat
  userdata : List Nat
  deriving DecidableEq, Repr

/-- Account::default(): zero balance, default (all-zero) owner, empty state. -/
instance : Inhabited Account := ⟨⟨0, 0, []⟩⟩

/-- TransactionProcessorError (transaction_processor.rs lines 37-63). -/
inductive TransactionProcessorError where
  | AccountNotFound
  | InsufficientFundsForFee
  | DuplicateSignature
  | LastIdNotFound
  | SignatureNotFound
  | LedgerVerificationFailed
  | UnbalancedTransaction
  | ResultWithNegativeTokens
  | UnknownContractId
  | ModifiedContractId
  | ExternalAccountTokenSpend
  | ProgramRuntimeError
  deriving DecidableEq, Repr

/-- Rust's Result<T, TransactionProcessorError>
(type Result<T> in transaction_processor.rs line 65). -/
inductive RResult (α : Type) where
  | ok (val : α)
  | error (err : TransactionProcessorError)
  deriving DecidableEq, Repr

/-- Result::is_ok(). -/
def RResult.isOk {α : Type} : RResult α → Bool
  | .ok _ => true
  | .error _ => false

/-- HashMap lookup (HashMap::get), on the association-list model. -/
def mlookup {β : Type} (k : Nat) : List (Nat × β) → Option β
  | [] => none
  | (k', v) :: rest => if k = k' then some v else mlookup k rest

/-- HashMap::remove, on the association-list model. -/
def mremove {β : Type} (k : Nat) (m : List (Nat × β)) : List (Nat × β) :=
  m.filter (fun p => p.1 != k)

/-- HashMap::insert (overwriting), on the association-list model. -/
def minsert {β : Type} (k : Nat) (v : β) (m : List (Nat × β)) : List (Nat × β) :=
  (k, v) :: mremove k m

/-- payment_plan.rs: Payment { tokens, to }. -/
structure Payment where
  tokens : Int
  «to» : Nat
  deriving DecidableEq, Repr

/-- fin_plan.rs Condition: constructor shapes reconstructed from the uses in
fin_plan_transaction.rs (Condition::Timestamp(dt, pubkey),
Condition::Signature(pubkey)); DateTime<Utc> is an abstract atom (Nat). -/
inductive Condition where
  | Timestamp (dt : Nat) (key : Nat)
  | Sig (key : Nat)
  deriving DecidableEq, Repr

/-- fin_plan.rs FinPlan: constructor shapes reconstructed from the uses in
fin_plan_transaction.rs (FinPlan::Pay(payment), FinPlan::After(cond, payment),
FinPlan::Or((cond, payment), (cond, payment))). -/
inductive FinPlan where
  | Pay (p : Payment)
  | After (c : Condition) (p : Payment)
  | Or (a : Condition × Payment) (b : Condition × Payment)
  deriving DecidableEq, Repr

/-- fin_plan_instruction.rs: Vote { version, contact_info_version }. -/
structure Vote where
  version : Nat
  contact_info_version : Nat
  deriving DecidableEq, Repr

/-- fin_plan_instruction.rs: Contract { tokens, fin_plan }. -/
structure Contract where
  tokens : Int
  fin_plan : FinPlan
  deriving DecidableEq, Repr

/-- fin_plan_instruction.rs: Instruction (named FinPlanInstruction here to
avoid clashing with ambient names). -/
inductive FinPlanInstruction where
  | NewContract (c : Contract)
  | ApplyTimestamp (dt : Nat)
  | ApplySignature
  | NewVote (v : Vote)
  deriving DecidableEq, Repr

/-- transaction.rs: Transaction { signature, keys, program_id, last_id, fee,
userdata }. The userdata bytes are interpreted by at most one claim, through
bincode deserialization into a fin_plan_instruction::Instruction; the byte
string is therefore represented by its decoded form, none standing for bytes
that do not decode. -/
structure Transaction where
  signature : Nat
  keys : List Nat
  program_id : Nat
  last_id : Nat
  fee : Int
  userdata : Option FinPlanInstruction
  deriving DecidableEq, Repr

/-- The payments reachable along the branches of a plan (used to state what
"every branch disburses" means; from the constructor shapes above). -/
def FinPlan.branchPayments : FinPlan → List Payment
  | .Pay p => [p]
  | .After _ p => [p]
  | .Or (_, p1) (_, p2) => [p1, p2]

/-- Modelled from the spec: FinPlan::verify (fin_plan.rs is not under src/).
Spec section 4.4: "sum of tokens along every branch equals the contract's
declared token amount" - each branch consists of a single payment, so every
branch payment must equal the spendable amount. -/
def FinPlan.verify (plan : FinPlan) (spendable : Int) : Bool :=
  (plan.branchPayments).all (fun p => p.tokens == spendable)

/-- fin_plan_transaction.rs: Transaction::instruction() - bincode
deserialization of the userdata, modelled by the decoded form carried in the
transaction. -/
def Transaction.instruction (tx : Transaction) : Option FinPlanInstruction :=
  tx.userdata

/-- fin_plan_transaction.rs lines 217-225: Transaction::verify_plan(). -/
def Transaction.verify_plan (tx : Transaction) : Bool :=
  match tx.instruction with
  | some (.NewContract contract) =>
      decide (tx.fee ≥ 0) && decide (tx.fee ≤ contract.tokens)
        && contract.fin_plan.verify (contract.tokens - tx.fee)
  | _ => true

/-- Modelled from the spec: the well-known id of the built-in "system" program
(builtin_pgm.rs SystemProgram is not under src/); its value is an arbitrary
fixed atom. -/
def system_program_id : Nat := 101

/-- Modelled from the spec: SystemProgram::check_id (builtin_pgm.rs not under
src/) - comparison with the well-known system program id. -/
def system_check_id (id : Nat) : Bool := id == system_program_id

/-- transaction_processor.rs line 32: MAX_ENTRY_IDS = 1024 * 16. -/
def MAX_ENTRY_IDS : Nat := 1024 * 16

/-- SignatureStatusMap = HashMap<Signature, Result<()>>
(transaction_processor.rs line 66). -/
abbrev SigMap := List (Nat × RResult Unit)

/-- last_ids_sigs: HashMap<Hash, (SignatureStatusMap, u64)> - per-tip
signature set plus registration timestamp (transaction_processor.rs line 80). -/
abbrev LastIdSigs := List (Nat × (SigMap × Nat))

/-- The TransactionProcessor state touched by the claims
(transaction_processor.rs lines 75-89): accounts map, last_ids deque (front =
oldest), last_ids_sigs map, transaction_count. -/
structure TPState where
  accounts : List (Nat × Account)
  last_ids : List Nat
  last_ids_sigs : LastIdSigs
  transaction_count : Nat
  deriving DecidableEq, Repr

/-- TransactionProcessor::reserve_signature (lines 148-154). -/
def reserve_signature (sigs : SigMap) (s : Nat) : RResult Unit × SigMap :=
  match mlookup s sigs with
  | some _ => (.error .DuplicateSignature, sigs)
  | none => (.ok (), minsert s (.ok ()) sigs)

/-- TransactionProcessor::reserve_signature_with_last_id (lines 162-172). -/
def reserve_signature_with_last_id (lsig : LastIdSigs) (s : Nat)
    (last_id : Nat) : RResult Unit × LastIdSigs :=
  match mlookup last_id lsig with
  | some (m, ts) =>
      let (r, m') := reserve_signature m s
      (r, minsert last_id (m', ts) lsig)
  | none => (.error .LastIdNotFound, lsig)

/-- TransactionProcessor::clear_signatures (lines 156-160): keep tips and
timestamps, clear every signature set. -/
def clear_signatures (lsig : LastIdSigs) : LastIdSigs :=
  lsig.map (fun p => (p.1, (([] : SigMap), p.2.2)))

/-- TransactionProcessor::update_signature_status (lines 174-181):
entry(..).or_insert(Ok(())) followed by overwrite is an overwriting insert. -/
def update_signature_status (sigs : SigMap) (s : Nat)
    (r : RResult Unit) : SigMap :=
  minsert s r sigs

/-- TransactionProcessor::update_signature_status_with_last_id (lines
183-192): a no-op when the last_id is not registered. -/
def update_signature_status_with_last_id (lsig : LastIdSigs) (s : Nat)
    (r : RResult Unit) (last_id : Nat) : LastIdSigs :=
  match mlookup last_id lsig with
  | some (m, ts) => minsert last_id (update_signature_status m s r, ts) lsig
  | none => lsig

/-- TransactionProcessor::update_transaction_statuses (lines 194-198); the
source indexes res[i], lengths are equal at the call site. -/
def update_transaction_statuses :
    List Transaction → List (RResult Unit) → LastIdSigs → LastIdSigs
  | tx :: txs, r :: rs, lsig =>
      update_transaction_statuses txs rs
        (update_signature_status_with_last_id lsig tx.signature r tx.last_id)
  | _, _, lsig => lsig

/-- TransactionProcessor::register_entry_id (lines 213-228): when at capacity
pop the oldest tip and drop its signature set, then insert a fresh set for the
new tip and push it at the back. now is the wall-clock timestamp() argument. -/
def register_entry_id (lids : List Nat) (lsig : LastIdSigs) (last_id : Nat)
    (now : Nat) : List Nat × LastIdSigs :=
  let popped : List Nat × LastIdSigs :=
    if MAX_ENTRY_IDS ≤ lids.length then
      match lids with
      | front :: rest => (rest, mremove front lsig)
      | [] => (lids, lsig)
    else (lids, lsig)
  (popped.1 ++ [last_id], minsert last_id (([] : SigMap), now) popped.2)

/-- TransactionProcessor::get_signature_status (lines 618-626): scan all tip
buckets for the signature. -/
def get_signature_status (lsig : LastIdSigs) (s : Nat) : RResult Unit :=
  match lsig with
  | [] => .error .SignatureNotFound
  | (_, (m, _)) :: rest =>
      match mlookup s m with
      | some r => r
      | none => get_signature_status rest s

/-- called_accounts[0].tokens -= tx.fee (transaction_processor.rs line 269). -/
def debit_fee : List Account → Int → List Account
  | [], _ => []
  | a :: rest, fee => { a with tokens := a.tokens - fee } :: rest

/-- TransactionProcessor::load_account (lines 240-272). The source indexes
tx.keys[0]; an empty key list would panic there and is outside the modelled
domain (mapped to the AccountNotFound arm). -/
def load_account (accounts : List (Nat × Account)) (lsig : LastIdSigs)
    (tx : Transaction) : RResult (List Account) × LastIdSigs :=
  match tx.keys with
  | [] => (.error .AccountNotFound, lsig)
  | k0 :: _ =>
    match mlookup k0 accounts with
    | none => (.error .AccountNotFound, lsig)
    | some payer =>
      if payer.tokens < tx.fee then (.error .InsufficientFundsForFee, lsig)
      else
        let called := tx.keys.map (fun k => (mlookup k accounts).getD default)
        match reserve_signature_with_last_id lsig tx.signature tx.last_id with
        | (RResult.error e, lsig') => (.error e, lsig')
        | (RResult.ok _, lsig') => (.ok (debit_fee called tx.fee), lsig')

/-- TransactionProcessor::load_accounts (lines 274-283): sequential map, each
load threading the signature-reservation state. -/
def load_accounts (accounts : List (Nat × Account)) (lsig : LastIdSigs) :
    List Transaction → List (RResult (List Account)) × LastIdSigs
  | [] => ([], lsig)
  | tx :: txs =>
      let (r, lsig') := load_account accounts lsig tx
      let (rs, lsig'') := load_accounts accounts lsig' txs
      (r :: rs, lsig'')

/-- TransactionProcessor::verify_transaction (lines 285-306). -/
def verify_transaction (tx : Transaction) (pre_program_id : Nat)
    (pre_tokens : Int) (account : Account) : RResult Unit :=
  if !((pre_program_id == account.program_id)
      || (system_check_id tx.program_id && system_check_id pre_program_id)) then
    .error .ModifiedContractId
  else if tx.program_id != account.program_id
      && decide (pre_tokens > account.tokens) then
    .error .ExternalAccountTokenSpend
  else if account.tokens < 0 then
    .error .ResultWithNegativeTokens
  else .ok ()

/-- The post-check loop of execute_transaction (lines 358-360): zip the
pre-snapshot with the post accounts and stop at the first failing check. -/
def verify_all (tx : Transaction) :
    List (Pubkey × Int) → List Account → RResult Unit
  | (pid, ptok) :: pres, acct :: accts =>
      (match verify_transaction tx pid ptok acct with
       | RResult.ok _ => verify_all tx pres accts
       | RResult.error e => .error e)
  | _, _ => .ok ()

/-- Sum of the token balances of a list of account copies. -/
def sum_tokens (accounts : List Account) : Int :=
  (accounts.map Account.tokens).sum

/-- The program-dispatch region of execute_transaction (lines 334-356): the
dispatched programs (builtin_pgm.rs, fin_plan_program.rs, storage_program.rs,
tictactoe programs, dynamic programs) are not under src/, so dispatch is a
parameter: it either rewrites the in-memory account copies or fails
(UnknownContractId for an unrecognised program id, ProgramRuntimeError for a
failing program). -/
abbrev Dispatch := Transaction → List Account → RResult (List Account)

/-- TransactionProcessor::execute_transaction (lines 326-368): snapshot
(owner, balance) pairs and the balance total, dispatch, run the per-account
post-checks, then the balance-sum check. -/
def execute_transaction (dispatch : Dispatch) (tx : Transaction)
    (accounts : List Account) : RResult (List Account) :=
  let pre_total : Int := sum_tokens accounts
  let pre_data : List (Pubkey × Int) :=
    accounts.map (fun a => (a.program_id, a.tokens))
  match dispatch tx accounts with
  | RResult.error e => .error e
  | RResult.ok post =>
    match verify_all tx pre_data post with
    | RResult.error e => .error e
    | RResult.ok _ =>
        if pre_total ≠ sum_tokens post then .error .UnbalancedTransaction
        else .ok post

/-- One entry of the result loop of process_transactions (lines 406-412): a
load failure is passed through, otherwise the transaction executes on its
loaded account copies; the second component is the loaded slot afterwards (in
the source the Ok slot is mutated in place by execution). -/
def run_tx (dispatch : Dispatch) (tx : Transaction)
    (racc : RResult (List Account)) :
    RResult Unit × RResult (List Account) :=
  match racc with
  | .error e => (.error e, .error e)
  | .ok accs =>
    match execute_transaction dispatch tx accs with
    | .error e => (.error e, .ok accs)
    | .ok post => (.ok (), .ok post)

/-- The result loop of process_transactions over the whole batch. -/
def run_txs (dispatch : Dispatch) :
    List Transaction → List (RResult (List Account)) →
    List (RResult Unit) × List (RResult (List Account))
  | tx :: txs, racc :: raccs =>
      let (r, post) := run_tx dispatch tx racc
      let (rs, posts) := run_txs dispatch txs raccs
      (r :: rs, post :: posts)
  | _, _ => ([], [])

/-- The per-transaction commit inside store_accounts (lines 383-390): for each
(key, account) pair, remove the account when its balance is zero, otherwise
write it back. -/
def store_tx (m : List (Nat × Account)) (tx : Transaction)
    (accs : List Account) : List (Nat × Account) :=
  (tx.keys.zip accs).foldl
    (fun m' p => if p.2.tokens == 0 then mremove p.1 m' else minsert p.1 p.2 m')
    m

/-- TransactionProcessor::store_accounts (lines 370-392): commit only the
transactions whose result and loaded slot are both Ok. -/
def store_accounts :
    List Transaction → List (RResult Unit) → List (RResult (List Account)) →
    List (Nat × Account) → List (Nat × Account)
  | tx :: txs, r :: rs, racc :: raccs, m =>
      let m' := match r, racc with
        | RResult.ok _, RResult.ok accs => store_tx m tx accs
        | _, _ => m
      store_accounts txs rs raccs m'
  | _, _, _, m => m

/-- Result::is_ok count used for the transaction_count update (lines 425-436,
461-462). -/
def countOk (rs : List (RResult Unit)) : Nat :=
  rs.countP (fun r => r.isOk)

/-- TransactionProcessor::process_transactions (lines 394-464): load all
transactions against the pre-batch accounts map, execute each loaded slot,
store the successful ones, record all statuses, bump transaction_count by the
number of Ok results. -/
def process_transactions (dispatch : Dispatch) (txs : List Transaction)
    (st : TPState) : List (RResult Unit) × TPState :=
  let (loaded, lsig1) := load_accounts st.accounts st.last_ids_sigs txs
  let (res, posts) := run_txs dispatch txs loaded
  let accounts1 := store_accounts txs res posts st.accounts
  let lsig2 := update_transaction_statuses txs res lsig1
  (res, { st with
            accounts := accounts1,
            last_ids_sigs := lsig2,
            transaction_count := st.transaction_count + countOk res })

/-- TransactionProcessor::get_account (lines 606-612). -/
def get_account (accounts : List (Nat × Account)) (k : Nat) :
    Option Account :=
  mlookup k accounts

/-- TransactionProcessor::get_balance (lines 600-604). read_balance dispatches
on the owner program (lines 590-598) whose get_balance implementations are not
under src/; it is abstracted as the readBalance parameter. A missing account
reads as balance 0 (unwrap_or(0)). -/
def get_balance (readBalance : Account → Int)
    (accounts : List (Nat × Account)) (k : Nat) : Int :=
  match get_account accounts k with
  | some a => readBalance a
  | none => 0

/-- The BTreeMap built by hash_internal_state (lines 633-639): the accounts in
strictly increasing key order, each key paired with its stored account. -/
def snapshotEntries (m : List (Nat × Account)) : List (Nat × Account) :=
  (((m.map Prod.fst).dedup).insertionSort (· ≤ ·)).map
    (fun k => (k, (mlookup k m).getD default))

/-- TransactionProcessor::hash_internal_state (lines 633-639): digest of the
serialized key-ordered account map. bincode serialization composed with
SHA-256 (hash.rs, not under src/) is abstracted as the digest parameter. -/
def hash_internal_state (digest : List (Nat × Account) → Nat)
    (st : TPState) : Nat :=
  digest (snapshotEntries st.accounts)

/-- A signature s currently recorded (reserved or status-updated) under tip t. -/
def sig_present (lsig : LastIdSigs) (t : Nat) (s : Nat) : Prop :=
  ∃ m ts r, mlookup t lsig = some (m, ts) ∧ mlookup s m = some r

/-- pod.rs: Pod { last_hash, num_hashes }. -/
structure Pod where
  last_hash : Nat
  num_hashes : Nat
  deriving DecidableEq, Repr

/-- pod.rs: PodEntry { num_hashes, id, mixin }. -/
structure PodEntry where
  num_hashes : Nat
  id : Nat
  mixin : Option Nat
  deriving DecidableEq, Repr

/-- Pod::new (pod.rs lines 18-23). -/
def Pod.new (last_hash : Nat) : Pod := ⟨last_hash, 0⟩

/-- Pod::hash (pod.rs lines 25-28); h1 is the abstract single-input hash
(hash.rs is not under src/). -/
def Pod.hashStep (h1 : Nat → Nat) (p : Pod) : Pod :=
  ⟨h1 p.last_hash, p.num_hashes + 1⟩

/-- Pod::record (pod.rs lines 30-41); h2 is the abstract two-input hash
(hashv over the concatenation). Returns the emitted entry and the new state. -/
def Pod.record (h2 : Nat → Nat → Nat) (p : Pod) (mixin : Nat) :
    PodEntry × Pod :=
  let num_hashes := p.num_hashes + 1
  let lh := h2 p.last_hash mixin
  (⟨num_hashes, lh, some mixin⟩, ⟨lh, 0⟩)

/-- Pod::tick (pod.rs lines 45-56): one hash step, then emit the accumulated
count and reset it. -/
def Pod.tick (h1 : Nat → Nat) (p : Pod) : PodEntry × Pod :=
  let p' := p.hashStep h1
  (⟨p'.num_hashes, p'.last_hash, none⟩, ⟨p'.last_hash, 0⟩)

/-- The iterated hash H^n. The loop `for _ in 1..num_hashes` of pod::verify
applies h1 (num_hashes - 1) times. -/
def iterHash (h1 : Nat → Nat) : Nat → Nat → Nat
  | 0, x => x
  | n + 1, x => iterHash h1 n (h1 x)

/-- pod::verify (pod.rs lines 60-79), rolled into a recursion carrying the
running last_hash. The source asserts num_hashes != 0 (aborting otherwise);
entries produced by Pod always satisfy it, and the assertion is modelled as a
failing check. -/
def podVerifyFrom (h1 : Nat → Nat) (h2 : Nat → Nat → Nat) (last : Nat) :
    List PodEntry → Bool
  | [] => true
  | e :: rest =>
      e.num_hashes != 0 &&
      (let pre := iterHash h1 (e.num_hashes - 1) last
       let idc := match e.mixin with
         | some m => h2 pre m
         | none => h1 pre
       idc == e.id && podVerifyFrom h1 h2 idc rest)

/-- One interleaving step against a Pod: an idle hash, a tick, or a record
with a given mixin. -/
inductive PodOp where
  | opHash
  | opTick
  | opRecord (mixin : Nat)
  deriving DecidableEq, Repr

/-- Run a sequence of Pod calls, collecting the emitted entries in order. -/
def runPod (h1 : Nat → Nat) (h2 : Nat → Nat → Nat) :
    Pod → List PodOp → Pod × List PodEntry
  | p, [] => (p, [])
  | p, op :: ops =>
    match op with
    | .opHash => runPod h1 h2 (p.hashStep h1) ops
    | .opTick =>
        let (e, p') := p.tick h1
        let (pf, es) := runPod h1 h2 p' ops
        (pf, e :: es)
    | .opRecord m =>
        let (e, p') := p.record h2 m
        let (pf, es) := runPod h1 h2 p' ops
        (pf, e :: es)

/-- Modelled from the spec: the built-in System program's token transfer
(builtin_pgm.rs SystemProgram::Move is not under src/; spec section 4.4
"System: ... transfers tokens"): move n tokens from the fee payer (keys[0])
to the second referenced account. Used to instantiate Dispatch concretely. -/
def moveDispatch (n : Int) : Dispatch := fun _ accs =>
  match accs with
  | a :: b :: rest =>
      .ok ({ a with tokens := a.tokens - n } :: { b with tokens := b.tokens + n } :: rest)
  | _ => .error .ProgramRuntimeError

/-- A dispatch table with no program registered: every program id is unknown
(the final else branch of execute_transaction, line 355). -/
def emptyDispatch : Dispatch := fun _ _ => .error .UnknownContractId

/-! Association-list map lemmas shared by the claim proofs. -/

theorem mlookup_mremove_self {β : Type} (k : Nat) (m : List (Nat × β)) :
    mlookup k (mremove k m) = none := by
  induction m with
  | nil => rfl
  | cons p rest ih =>
    by_cases h : p.1 = k
    · simpa [mremove, List.filter_cons, h] using ih
    · simpa [mremove, List.filter_cons, h, mlookup, Ne.symm h] using ih

theorem mlookup_mremove_ne {β : Type} {k k' : Nat} (m : List (Nat × β))
    (h : k ≠ k') : mlookup k (mremove k' m) = mlookup k m := by
  induction m with
  | nil => rfl
  | cons p rest ih =>
    by_cases hp : p.1 = k'
    · simp [mremove, List.filter_cons, hp, mlookup] at *
      rw [if_neg (by omega), ih]
    · simp only [mremove, List.filter_cons] at *
      simp only [hp, bne_iff_ne, ne_eq, not_false_iff, if_pos, mlookup]
      by_cases hk : k = p.1 <;> simp [hk, ih]

theorem mlookup_minsert_self {β : Type} (k : Nat) (v : β)
    (m : List (Nat × β)) : mlookup k (minsert k v m) = some v := by
  simp [minsert, mlookup]

theorem mlookup_minsert_ne {β : Type} {k k' : Nat} (v : β)
    (m : List (Nat × β)) (h : k ≠ k') :
    mlookup k (minsert k' v m) = mlookup k m := by
  simp [minsert, mlookup, h, mlookup_mremove_ne m h]

theorem sig_present_def (lsig : LastIdSigs) (t : Nat) (s : Nat) :
    sig_present lsig t s ↔
      ∃ m ts r, mlookup t lsig = some (m, ts) ∧ mlookup s m = some r :=
  Iff.rfl

theorem mlookup_clear_signatures {lsig : LastIdSigs} {t : Nat} {m : SigMap}
    {ts : Nat} (h : mlookup t lsig = some (m, ts)) :
    mlookup t (clear_signatures lsig) = some (([] : SigMap), ts) := by
  induction lsig with
  | nil => cases h
  | cons p rest ih =>
    unfold clear_signatures at ih ⊢
    simp only [List.map_cons, mlookup] at h ⊢
    by_cases hp : t = p.1
    · rw [if_pos hp] at h
      rw [if_pos hp]
      injection h with h2
      rw [h2]
    · rw [if_neg hp] at h
      rw [if_neg hp]
      exact ih h

theorem reserve_signature_preserves {m : SigMap} {s : Nat}
    {r : RResult Unit} (s' : Nat) (h : mlookup s m = some r) :
    mlookup s (reserve_signature m s').2 = some r := by
  unfold reserve_signature
  cases hl : mlookup s' m with
  | some _ => simpa using h
  | none =>
    by_cases hss : s = s'
    · rw [hss] at h; rw [h] at hl; cases hl
    · simpa [mlookup_minsert_ne _ _ hss] using h

end Hypercube

namespace Hypercube

/-- C3: with the ring at capacity MAX_ENTRY_IDS, registering a fresh tip pops
the oldest tip, drops its whole signature set from last_ids_sigs, and any
later reservation against the evicted tip fails with LastIdNotFound. -/
theorem c3_register_at_capacity_evicts_oldest (front : Nat)
    (rest : List Nat) (lsig : LastIdSigs) (newTip : Nat) (now : Nat)
    (s : Nat) (hlen : (front :: rest).length = MAX_ENTRY_IDS)
    (hne : newTip ≠ front) :
    (register_entry_id (front :: rest) lsig newTip now).1 = rest ++ [newTip] ∧
    mlookup front (register_entry_id (front :: rest) lsig newTip now).2 = none ∧
    (reserve_signature_with_last_id
        (register_entry_id (front :: rest) lsig newTip now).2 s front).1 =
      .error .LastIdNotFound := by
  have hlen' : rest.length + 1 = MAX_ENTRY_IDS := by simpa using hlen
  have hcap : MAX_ENTRY_IDS ≤ rest.length + 1 := le_of_eq hlen'.symm
  have hrw : register_entry_id (front :: rest) lsig newTip now =
      (rest ++ [newTip],
       minsert newTip (([] : SigMap), now) (mremove front lsig)) := by
    simp [register_entry_id, hcap]
  have hfront : mlookup front
      (register_entry_id (front :: rest) lsig newTip now).2 = none := by
    rw [hrw]
    show mlookup front (minsert newTip _ (mremove front lsig)) = none
    rw [mlookup_minsert_ne _ _ (Ne.symm hne)]
    exact mlookup_mremove_self front lsig
  refine ⟨by rw [hrw], hfront, ?_⟩
  simp [reserve_signature_with_last_id, hfront]

/-- Closed instance of c3_register_at_capacity_evicts_oldest: a full ring of
16384 tips headed by tip 0; registering tip 2 evicts tip 0 and a reservation
against tip 0 then fails with LastIdNotFound. -/
theorem c3_witness :
    ((0 : Nat) :: List.replicate 16383 1).length = MAX_ENTRY_IDS ∧
    ((2 : Nat) ≠ 0) ∧
    ((register_entry_id ((0 : Nat) :: List.replicate 16383 1)
        [(0, (([] : SigMap), 0))] 2 0).1 = List.replicate 16383 1 ++ [2] ∧
     mlookup 0 (register_entry_id ((0 : Nat) :: List.replicate 16383 1)
        [(0, (([] : SigMap), 0))] 2 0).2 = none ∧
     (reserve_signature_with_last_id
        (register_entry_id ((0 : Nat) :: List.replicate 16383 1)
          [(0, (([] : SigMap), 0))] 2 0).2 5 0).1 =
       .error .LastIdNotFound) := by
  refine ⟨by rw [List.length_cons, List.length_replicate]; rfl, by decide, ?_⟩
  exact c3_register_at_capacity_evicts_oldest 0 (List.replicate 16383 1)
    [(0, (([] : SigMap), 0))] 2 0 5
    (by rw [List.length_cons, List.length_replicate]; rfl) (by decide)

/-- C4: under a registered tip, reserving a signature succeeds exactly on its
first attempt: a fresh signature is reserved and becomes present; a present
signature yields DuplicateSignature and leaves the tip's set unchanged;
presence survives any further reservation; and clear_signatures resets the
tip's set to empty (after which a reservation is fresh again). -/
theorem c4_reserve_ok_at_most_once (lsig : LastIdSigs) (t : Nat)
    (s : Nat) (m : SigMap) (ts : Nat)
    (hreg : mlookup t lsig = some (m, ts)) :
    (mlookup s m = none →
        (reserve_signature_with_last_id lsig s t).1 = .ok () ∧
        sig_present (reserve_signature_with_last_id lsig s t).2 t s) ∧
    (∀ r, mlookup s m = some r →
        (reserve_signature_with_last_id lsig s t).1 = .error .DuplicateSignature ∧
        mlookup t (reserve_signature_with_last_id lsig s t).2 = some (m, ts)) ∧
    (∀ s' t', sig_present lsig t s →
        sig_present (reserve_signature_with_last_id lsig s' t').2 t s) ∧
    mlookup t (clear_signatures lsig) = some (([] : SigMap), ts) := by
  refine ⟨?_, ?_, ?_, mlookup_clear_signatures hreg⟩
  · intro hnone
    have hrw : reserve_signature_with_last_id lsig s t =
        (.ok (), minsert t (minsert s (.ok ()) m, ts) lsig) := by
      simp [reserve_signature_with_last_id, hreg, reserve_signature, hnone]
    rw [hrw, sig_present_def]
    exact ⟨rfl, minsert s (.ok ()) m, ts, .ok (),
      mlookup_minsert_self t _ lsig, mlookup_minsert_self s _ m⟩
  · intro r hr
    have hrw : reserve_signature_with_last_id lsig s t =
        (.error .DuplicateSignature, minsert t (m, ts) lsig) := by
      simp [reserve_signature_with_last_id, hreg, reserve_signature, hr]
    rw [hrw]
    exact ⟨rfl, mlookup_minsert_self t _ lsig⟩
  · intro s' t' hp
    rw [sig_present_def] at hp
    rw [sig_present_def]
    obtain ⟨m0, ts0, r0, hm0, hs0⟩ := hp
    unfold reserve_signature_with_last_id
    cases ht' : mlookup t' lsig with
    | none => exact ⟨m0, ts0, r0, hm0, hs0⟩
    | some e =>
      obtain ⟨m', ts'⟩ := e
      by_cases htt : t = t'
      · subst htt
        rw [hm0] at ht'
        injection ht' with ht''
        have hm' : m0 = m' := congrArg Prod.fst ht''
        subst hm'
        exact ⟨(reserve_signature m0 s').2, ts', r0,
          mlookup_minsert_self t _ lsig,
          reserve_signature_preserves s' hs0⟩
      · exact ⟨m0, ts0, r0, by
          rw [mlookup_minsert_ne _ _ htt]; exact hm0, hs0⟩

/-- Closed instance of c4_reserve_ok_at_most_once at tip 9 whose set already
holds signature 7: the first reservation of signature 8 succeeds, a repeat of
signature 7 is a duplicate, and clearing resets the set. -/
theorem c4_witness :
    mlookup 9 [(9, (([(7, RResult.ok ())] : SigMap), 3))] =
      some (([(7, RResult.ok ())] : SigMap), 3) ∧
    ((mlookup 8 ([(7, RResult.ok ())] : SigMap) = none →
        (reserve_signature_with_last_id
            [(9, (([(7, RResult.ok ())] : SigMap), 3))] 8 9).1 = .ok () ∧
        sig_present (reserve_signature_with_last_id
            [(9, (([(7, RResult.ok ())] : SigMap), 3))] 8 9).2 9 8) ∧
     (∀ r, mlookup 7 ([(7, RResult.ok ())] : SigMap) = some r →
        (reserve_signature_with_last_id
            [(9, (([(7, RResult.ok ())] : SigMap), 3))] 7 9).1 =
          .error .DuplicateSignature ∧
        mlookup 9 (reserve_signature_with_last_id
            [(9, (([(7, RResult.ok ())] : SigMap), 3))] 7 9).2 =
          some (([(7, RResult.ok ())] : SigMap), 3)) ∧
     (∀ s' t', sig_present [(9, (([(7, RResult.ok ())] : SigMap), 3))] 9 7 →
        sig_present (reserve_signature_with_last_id
            [(9, (([(7, RResult.ok ())] : SigMap), 3))] s' t').2 9 7) ∧
     mlookup 9 (clear_signatures [(9, (([(7, RResult.ok ())] : SigMap), 3))]) =
       some (([] : SigMap), 3)) := by
  constructor
  · decide
  · constructor
    · intro _
      exact (c4_reserve_ok_at_most_once
        [(9, (([(7, RResult.ok ())] : SigMap), 3))] 9 8
        [(7, RResult.ok ())] 3 (by decide)).1 (by decide)
    · exact (c4_reserve_ok_at_most_once
        [(9, (([(7, RResult.ok ())] : SigMap), 3))] 9 7
        [(7, RResult.ok ())] 3 (by decide)).2

/-! Pod support lemmas. -/

theorem iterHash_succ_right (h1 : Nat → Nat) (n : Nat) (x : Nat) :
    iterHash h1 (n + 1) x = h1 (iterHash h1 n x) := by
  induction n generalizing x with
  | zero => rfl
  | succ k ih =>
    show iterHash h1 (k + 1) (h1 x) = h1 (iterHash h1 (k + 1) x)
    rw [ih (h1 x)]
    rfl

theorem runPod_verifies_aux (h1 : Nat → Nat) (h2 : Nat → Nat → Nat)
    (ops : List PodOp) : ∀ (n : Nat) (last : Nat),
    podVerifyFrom h1 h2 last
      (runPod h1 h2 ⟨iterHash h1 n last, n⟩ ops).2 = true := by
  induction ops with
  | nil => intro n last; rfl
  | cons op ops ih =>
    intro n last
    cases op with
    | opHash =>
        show podVerifyFrom h1 h2 last
          (runPod h1 h2 (Pod.hashStep h1 ⟨iterHash h1 n last, n⟩) ops).2 = true
        have : Pod.hashStep h1 ⟨iterHash h1 n last, n⟩ =
            ⟨iterHash h1 (n + 1) last, n + 1⟩ := by
          simp [Pod.hashStep, iterHash_succ_right]
        rw [this]
        exact ih (n + 1) last
    | opTick =>
        show podVerifyFrom h1 h2 last
          (⟨n + 1, h1 (iterHash h1 n last), none⟩ ::
            (runPod h1 h2 ⟨h1 (iterHash h1 n last), 0⟩ ops).2) = true
        unfold podVerifyFrom
        simp only [Nat.add_sub_cancel, bne_iff_ne, ne_eq, Nat.succ_ne_zero,
          not_false_iff, Bool.true_and, beq_self_eq_true, Bool.and_eq_true,
          beq_iff_eq, true_and, and_true]
        exact ih 0 (h1 (iterHash h1 n last))
    | opRecord mix =>
        show podVerifyFrom h1 h2 last
          (⟨n + 1, h2 (iterHash h1 n last) mix, some mix⟩ ::
            (runPod h1 h2 ⟨h2 (iterHash h1 n last) mix, 0⟩ ops).2) = true
        unfold podVerifyFrom
        simp only [Nat.add_sub_cancel, bne_iff_ne, ne_eq, Nat.succ_ne_zero,
          not_false_iff, Bool.true_and, beq_self_eq_true, Bool.and_eq_true,
          beq_iff_eq, true_and, and_true]
        exact ih 0 (h2 (iterHash h1 n last) mix)

/-! Key-membership and commit support lemmas. -/

theorem mem_keys_iff_mlookup {β : Type} (k : Nat) (m : List (Nat × β)) :
    k ∈ m.map Prod.fst ↔ ∃ v, mlookup k m = some v := by
  induction m with
  | nil => simp [mlookup]
  | cons p rest ih =>
    by_cases h : k = p.1
    · simp [mlookup, h]
    · simp [mlookup, h, Ne.symm h, ih]

theorem store_accounts_skip_error (tx : Transaction) (txs : List Transaction)
    (rs : List (RResult Unit)) (raccs : List (RResult (List Account)))
    (m : List (Nat × Account)) (e : TransactionProcessorError)
    (racc : RResult (List Account)) :
    store_accounts (tx :: txs) (.error e :: rs) (racc :: raccs) m =
      store_accounts txs rs raccs m := by
  cases racc <;> rfl

theorem verify_transaction_eq_ite (tx : Transaction) (pre_pid : Nat)
    (pre_tok : Int) (acct : Account) :
    verify_transaction tx pre_pid pre_tok acct =
      if pre_pid = acct.program_id ∨
          (tx.program_id = system_program_id ∧
           pre_pid = system_program_id) then
        if tx.program_id ≠ acct.program_id ∧ pre_tok > acct.tokens then
          .error .ExternalAccountTokenSpend
        else if acct.tokens < 0 then .error .ResultWithNegativeTokens
        else .ok ()
      else .error .ModifiedContractId := by
  unfold verify_transaction
  by_cases hA : pre_pid = acct.program_id ∨
      (tx.program_id = system_program_id ∧ pre_pid = system_program_id)
  · have hb1 : ((pre_pid == acct.program_id)
        || (system_check_id tx.program_id && system_check_id pre_pid)) = true := by
      simp only [Bool.or_eq_true, Bool.and_eq_true, beq_iff_eq, system_check_id]
      exact hA
    rw [hb1, if_pos hA]
    simp only [Bool.not_true, Bool.false_eq_true, if_false]
    by_cases hB : tx.program_id ≠ acct.program_id ∧ pre_tok > acct.tokens
    · have hb2 : ((tx.program_id != acct.program_id)
          && decide (pre_tok > acct.tokens)) = true := by
        simp only [Bool.and_eq_true, bne_iff_ne, decide_eq_true_eq]
        exact hB
      rw [hb2, if_pos hB]
      simp
    · have hb2 : ((tx.program_id != acct.program_id)
          && decide (pre_tok > acct.tokens)) = false := by
        simp only [Bool.and_eq_false_iff, bne_eq_false_iff_eq,
          decide_eq_false_iff_not]
        tauto
      rw [hb2, if_neg hB]
      simp
  · have hb1 : ((pre_pid == acct.program_id)
        || (system_check_id tx.program_id && system_check_id pre_pid)) = false := by
      simp only [Bool.or_eq_false_iff, Bool.and_eq_false_iff,
        beq_eq_false_iff_ne, ne_eq, system_check_id]
      tauto
    rw [hb1, if_neg hA]
    simp

theorem store_tx_lookup (tx : Transaction) (accs : List Account)
    (m : List (Nat × Account)) (k : Nat) :
    mlookup k (store_tx m tx accs) =
      match (tx.keys.zip accs).reverse.find? (fun p => p.1 == k) with
      | some p => if p.2.tokens == 0 then none else some p.2
      | none => mlookup k m := by
  unfold store_tx
  generalize (tx.keys.zip accs) = ps
  induction ps generalizing m with
  | nil => rfl
  | cons p rest ih =>
    rw [List.foldl_cons, ih, List.reverse_cons, List.find?_append]
    cases hfr : rest.reverse.find? (fun q => q.1 == k) with
    | some q => simp
    | none =>
      simp only [Option.none_orElse]
      by_cases hk : p.1 = k
      · simp only [List.find?, hk, beq_self_eq_true]
        by_cases hz : p.2.tokens = 0
        · simp [hz, hk ▸ mlookup_mremove_self p.1 m]
        · simp [hz, hk ▸ mlookup_minsert_self p.1 p.2 m]
      · have : (p.1 == k) = false := by simp [hk]
        simp only [List.find?, this]
        by_cases hz : p.2.tokens = 0
        · simp [hz, mlookup_mremove_ne m (fun h => hk h.symm)]
        · simp [hz, mlookup_minsert_ne p.2 m (fun h => hk h.symm)]

/-- C2: full characterization of the executor's per-account post-checks: the
check passes exactly when the owner is unchanged or both the old owner and the
transaction's program are the system program, the balance of an account not
owned by the transaction's program has not decreased, and the balance is
nonnegative; each violation is reported as ModifiedContractId,
ExternalAccountTokenSpend, ResultWithNegativeTokens respectively (in check
order); and a transaction with an error result is skipped by the commit. -/
theorem c2_verify_transaction_characterization (tx : Transaction)
    (pre_program_id : Nat) (pre_tokens : Int) (account : Account) :
    (verify_transaction tx pre_program_id pre_tokens account = .ok () ↔
      ((pre_program_id = account.program_id ∨
          (tx.program_id = system_program_id ∧
           pre_program_id = system_program_id)) ∧
       (tx.program_id ≠ account.program_id → pre_tokens ≤ account.tokens) ∧
       0 ≤ account.tokens)) ∧
    (verify_transaction tx pre_program_id pre_tokens account =
        .error .ModifiedContractId ↔
      ¬(pre_program_id = account.program_id ∨
          (tx.program_id = system_program_id ∧
           pre_program_id = system_program_id))) ∧
    (verify_transaction tx pre_program_id pre_tokens account =
        .error .ExternalAccountTokenSpend ↔
      ((pre_program_id = account.program_id ∨
          (tx.program_id = system_program_id ∧
           pre_program_id = system_program_id)) ∧
       tx.program_id ≠ account.program_id ∧ pre_tokens > account.tokens)) ∧
    (verify_transaction tx pre_program_id pre_tokens account =
        .error .ResultWithNegativeTokens ↔
      ((pre_program_id = account.program_id ∨
          (tx.program_id = system_program_id ∧
           pre_program_id = system_program_id)) ∧
       (tx.program_id ≠ account.program_id → pre_tokens ≤ account.tokens) ∧
       account.tokens < 0)) ∧
    (∀ txs rs raccs m e racc,
       store_accounts (tx :: txs) (.error e :: rs) (racc :: raccs) m =
         store_accounts txs rs raccs m) := by
  refine ⟨?_, ?_, ?_, ?_,
    fun txs rs raccs m e racc => store_accounts_skip_error _ _ _ _ _ _ _⟩
  all_goals rw [verify_transaction_eq_ite]
  all_goals simp only [system_program_id]
  all_goals split_ifs with hA hB hC
  all_goals try simp only [not_or, not_and, not_not, not_lt] at hA
  all_goals try simp only [not_or, not_and, not_not, not_lt] at hB
  all_goals try simp only [not_or, not_and, not_not, not_lt] at hC
  all_goals
    try simp only [reduceCtorEq, RResult.error.injEq, RResult.ok.injEq,
      false_iff, iff_false, true_iff, iff_true, not_or, not_and, not_not,
      not_lt, not_false_iff, not_true, false_and, and_false, true_and,
      and_true]
  all_goals first
    | trivial
    | omega

/-- C5: any interleaving of Pod::hash, Pod::tick and Pod::record calls,
started from an arbitrary initial hash, emits a PodEntry sequence that
pod::verify accepts from that initial hash - i.e. the produced entries obey
the tick/record chain rule. -/
theorem c5_pod_stream_verifies (h1 : Nat → Nat) (h2 : Nat → Nat → Nat)
    (P : Nat) (ops : List PodOp) :
    podVerifyFrom h1 h2 P (runPod h1 h2 (Pod.new P) ops).2 = true :=
  runPod_verifies_aux h1 h2 ops 0 P

/-- C9: hash_internal_state is insertion-history independent: two account maps
with the same key-to-account binding produce the same snapshot digest, because
the digest reads the accounts in sorted key order. -/
theorem c9_hash_internal_state_history_independent
    (digest : List (Nat × Account) → Nat) (st1 st2 : TPState)
    (h : ∀ k, mlookup k st1.accounts = mlookup k st2.accounts) :
    hash_internal_state digest st1 = hash_internal_state digest st2 := by
  unfold hash_internal_state
  suffices hs : snapshotEntries st1.accounts = snapshotEntries st2.accounts by
    rw [hs]
  unfold snapshotEntries
  have hmem : ∀ a, a ∈ (st1.accounts.map Prod.fst).dedup ↔
      a ∈ (st2.accounts.map Prod.fst).dedup := by
    intro a
    rw [List.mem_dedup, List.mem_dedup, mem_keys_iff_mlookup,
      mem_keys_iff_mlookup, h a]
  have hperm : List.Perm ((st1.accounts.map Prod.fst).dedup)
      ((st2.accounts.map Prod.fst).dedup) :=
    (List.perm_ext_iff_of_nodup (List.nodup_dedup _) (List.nodup_dedup _)).2 hmem
  have hsorted : ((st1.accounts.map Prod.fst).dedup).insertionSort (· ≤ ·) =
      ((st2.accounts.map Prod.fst).dedup).insertionSort (· ≤ ·) :=
    List.eq_of_perm_of_sorted
      (((List.perm_insertionSort _ _).trans hperm).trans
        (List.perm_insertionSort _ _).symm)
      (List.sorted_insertionSort _ _) (List.sorted_insertionSort _ _)
  rw [hsorted]
  have hfun : (fun k => (k, (mlookup k st1.accounts).getD default)) =
      (fun k => (k, (mlookup k st2.accounts).getD default)) := by
    funext k
    rw [h k]
  rw [hfun]

/-- Closed instance of c9_hash_internal_state_history_independent: the same
two accounts inserted in opposite orders give equal internal-state hashes. -/
theorem c9_witness :
    (∀ k, mlookup k [((1 : Nat), Account.mk 5 0 []), (2, Account.mk 7 0 [])] =
          mlookup k [((2 : Nat), Account.mk 7 0 []), (1, Account.mk 5 0 [])]) ∧
    hash_internal_state (fun l => l.length)
        ⟨[(1, Account.mk 5 0 []), (2, Account.mk 7 0 [])], [], [], 0⟩ =
      hash_internal_state (fun l => l.length)
        ⟨[(2, Account.mk 7 0 []), (1, Account.mk 5 0 [])], [], [], 0⟩ := by
  have h : ∀ k, mlookup k [((1 : Nat), Account.mk 5 0 []), (2, Account.mk 7 0 [])] =
      mlookup k [((2 : Nat), Account.mk 7 0 []), (1, Account.mk 5 0 [])] := by
    intro k
    by_cases h1 : k = 1 <;> by_cases h2 : k = 2 <;> simp [mlookup, h1, h2]
  exact ⟨h, c9_hash_internal_state_history_independent (fun l => l.length)
    ⟨[(1, Account.mk 5 0 []), (2, Account.mk 7 0 [])], [], [], 0⟩
    ⟨[(2, Account.mk 7 0 []), (1, Account.mk 5 0 [])], [], [], 0⟩ h⟩

/-- C8: committing a successfully executed transaction removes every touched
account whose resulting balance is zero: if the last write of key k in the
transaction's (key, account) pairs carries zero tokens, the store holds no
account for k afterwards, get_account is none and get_balance reads 0; keys
never created (absent and untouched) also read as none / 0. -/
theorem c8_zero_balance_accounts_removed (m : List (Nat × Account))
    (tx : Transaction) (accs : List Account) (k : Nat) (a : Account)
    (readBalance : Account → Int)
    (hlast : (tx.keys.zip accs).reverse.find? (fun p => p.1 == k) = some (k, a))
    (hzero : a.tokens = 0) :
    get_account (store_tx m tx accs) k = none ∧
    get_balance readBalance (store_tx m tx accs) k = 0 ∧
    (∀ k', mlookup k' m = none → (∀ p ∈ tx.keys.zip accs, p.1 ≠ k') →
       get_account (store_tx m tx accs) k' = none ∧
       get_balance readBalance (store_tx m tx accs) k' = 0) := by
  have hk : mlookup k (store_tx m tx accs) = none := by
    rw [store_tx_lookup, hlast]
    simp [hzero]
  refine ⟨hk, ?_, ?_⟩
  · unfold get_balance get_account
    rw [hk]
  · intro k' habsent huntouched
    have hnone : (tx.keys.zip accs).reverse.find? (fun p => p.1 == k') = none := by
      rw [List.find?_eq_none]
      intro p hp
      simpa using huntouched p (List.mem_reverse.1 hp)
    have hk' : mlookup k' (store_tx m tx accs) = none := by
      rw [store_tx_lookup, hnone]
      exact habsent
    constructor
    · exact hk'
    · unfold get_balance get_account
      rw [hk']

/-- Closed instance of c8_zero_balance_accounts_removed: a transaction that
drains account 1 to zero removes it from the store; the untouched absent key
3 stays absent; both then read balance 0. -/
theorem c8_witness :
    ((Transaction.mk 7 [1] 101 9 0 none).keys.zip
        [Account.mk 0 101 []]).reverse.find? (fun p => p.1 == 1) =
      some (1, Account.mk 0 101 []) ∧
    (Account.mk 0 101 []).tokens = 0 ∧
    (get_account (store_tx [((1 : Nat), Account.mk 5 101 [])]
        (Transaction.mk 7 [1] 101 9 0 none) [Account.mk 0 101 []]) 1 = none ∧
     get_balance Account.tokens (store_tx [((1 : Nat), Account.mk 5 101 [])]
        (Transaction.mk 7 [1] 101 9 0 none) [Account.mk 0 101 []]) 1 = 0 ∧
     (∀ k', mlookup k' [((1 : Nat), Account.mk 5 101 [])] = none →
        (∀ p ∈ (Transaction.mk 7 [1] 101 9 0 none).keys.zip
            [Account.mk 0 101 []], p.1 ≠ k') →
        get_account (store_tx [((1 : Nat), Account.mk 5 101 [])]
            (Transaction.mk 7 [1] 101 9 0 none) [Account.mk 0 101 []]) k' = none ∧
        get_balance Account.tokens
            (store_tx [((1 : Nat), Account.mk 5 101 [])]
              (Transaction.mk 7 [1] 101 9 0 none) [Account.mk 0 101 []]) k' = 0)) :=
  ⟨by decide, rfl,
   c8_zero_balance_accounts_removed [((1 : Nat), Account.mk 5 101 [])]
     (Transaction.mk 7 [1] 101 9 0 none) [Account.mk 0 101 []] 1
     (Account.mk 0 101 []) Account.tokens (by decide) rfl⟩

/-- C7: verify_plan holds exactly when any decoded NewContract instruction has
a nonnegative fee bounded by the contract's tokens and a plan every branch of
which disburses exactly contract.tokens - fee; transactions whose userdata is
not a NewContract decode are always accepted. -/
theorem c7_verify_plan_characterization (tx : Transaction) :
    tx.verify_plan = true ↔
      ∀ c, tx.instruction = some (.NewContract c) →
        0 ≤ tx.fee ∧ tx.fee ≤ c.tokens ∧
        ∀ p ∈ c.fin_plan.branchPayments, p.tokens = c.tokens - tx.fee := by
  unfold Transaction.verify_plan Transaction.instruction
  cases hu : tx.userdata with
  | none => simp
  | some ins =>
    cases ins with
    | NewContract c =>
        simp [FinPlan.verify, List.all_eq_true, ge_iff_le, and_assoc]
    | ApplyTimestamp dt => simp
    | ApplySignature => simp
    | NewVote v => simp

/-! Load-step inversion and balance-sum support lemmas. -/

theorem load_account_ok_inversion {accounts : List (Nat × Account)}
    {lsig lsig' : LastIdSigs} {tx : Transaction} {accs : List Account}
    (h : load_account accounts lsig tx = (.ok accs, lsig')) :
    ∃ k0 krest payer m ts,
      tx.keys = k0 :: krest ∧
      mlookup k0 accounts = some payer ∧
      ¬ payer.tokens < tx.fee ∧
      mlookup tx.last_id lsig = some (m, ts) ∧
      mlookup tx.signature m = none ∧
      lsig' = minsert tx.last_id (minsert tx.signature (.ok ()) m, ts) lsig ∧
      accs = debit_fee
        (tx.keys.map (fun k => (mlookup k accounts).getD default)) tx.fee := by
  unfold load_account at h
  cases hk : tx.keys with
  | nil => rw [hk] at h; simp at h
  | cons k0 krest =>
    rw [hk] at h
    dsimp only at h
    cases hp : mlookup k0 accounts with
    | none => rw [hp] at h; simp at h
    | some payer =>
      rw [hp] at h
      dsimp only at h
      by_cases hf : payer.tokens < tx.fee
      · rw [if_pos hf] at h; simp at h
      · rw [if_neg hf] at h
        unfold reserve_signature_with_last_id at h
        cases hm : mlookup tx.last_id lsig with
        | none => rw [hm] at h; simp at h
        | some pair =>
          obtain ⟨m, ts⟩ := pair
          rw [hm] at h
          dsimp only at h
          unfold reserve_signature at h
          cases hs : mlookup tx.signature m with
          | some r => rw [hs] at h; simp at h
          | none =>
            rw [hs] at h
            dsimp only at h
            simp only [Prod.mk.injEq, RResult.ok.injEq] at h
            exact ⟨k0, krest, payer, m, ts, rfl, hp, hf, rfl, hs,
              h.2.symm, h.1.symm⟩

theorem sum_tokens_debit_fee (a : Account) (rest : List Account) (fee : Int) :
    sum_tokens (debit_fee (a :: rest) fee) = sum_tokens (a :: rest) - fee := by
  simp [debit_fee, sum_tokens]
  ring

/-- C1 (amended): for a transaction accepted by the load step, the executor's
balance-sum reference pre_total is the sum of the loaded account copies AFTER
the fee debit, i.e. the sum of the referenced accounts' stored balances minus
T.fee; every successful execution preserves that sum; and when dispatch and
the per-account post-checks succeed, the transaction fails with
UnbalancedTransaction exactly when the post balances sum differs from
pre_total. -/
theorem c1_balance_sum_is_post_fee_sum (dispatch : Dispatch)
    (tx : Transaction) (accounts : List (Nat × Account))
    (lsig lsig' : LastIdSigs) (accs : List Account)
    (hload : load_account accounts lsig tx = (.ok accs, lsig')) :
    sum_tokens accs =
      sum_tokens (tx.keys.map (fun k =>
        ((mlookup k accounts).getD default))) - tx.fee ∧
    (∀ post, execute_transaction dispatch tx accs = .ok post →
        sum_tokens post = sum_tokens accs) ∧
    (∀ post, dispatch tx accs = .ok post →
        verify_all tx (accs.map (fun a => (a.program_id, a.tokens))) post
          = .ok () →
        (execute_transaction dispatch tx accs = .error .UnbalancedTransaction ↔
          sum_tokens post ≠ sum_tokens accs)) := by
  obtain ⟨k0, krest, payer, m, ts, hk, hp, hf, hm, hs, hlsig, haccs⟩ :=
    load_account_ok_inversion hload
  refine ⟨?_, ?_, ?_⟩
  · rw [haccs, hk]
    simp only [List.map_cons]
    exact sum_tokens_debit_fee _ _ tx.fee
  · intro post hok
    unfold execute_transaction at hok
    dsimp only at hok
    cases hd : dispatch tx accs with
    | error e => rw [hd] at hok; simp at hok
    | ok post' =>
      rw [hd] at hok
      dsimp only at hok
      cases hv : verify_all tx (accs.map (fun a => (a.program_id, a.tokens)))
          post' with
      | error e => rw [hv] at hok; simp at hok
      | ok u =>
        rw [hv] at hok
        dsimp only at hok
        by_cases hb : sum_tokens accs ≠ sum_tokens post'
        · rw [if_pos hb] at hok; simp at hok
        · rw [if_neg hb] at hok
          simp only [RResult.ok.injEq] at hok
          rw [not_ne_iff] at hb
          rw [← hok, ← hb]
  · intro post hd hv
    unfold execute_transaction
    dsimp only
    rw [hd]
    dsimp only
    rw [hv]
    dsimp only
    by_cases hb : sum_tokens accs ≠ sum_tokens post
    · rw [if_pos hb]
      simp only [eq_self_iff_true, true_iff]
      exact fun hc => hb (Eq.symm hc)
    · rw [if_neg hb]
      rw [not_ne_iff] at hb
      simp [hb]

/-- Closed instance of c1_balance_sum_is_post_fee_sum: account 1 holds 3
tokens and owner "system"; a system Move of 1 token with fee 1 is accepted by
the load step; the loaded copies sum to 2 = 3 - fee and execution preserves
that sum. -/
theorem c1_witness :
    load_account [((1 : Nat), Account.mk 3 101 [])] [(9, (([] : SigMap), 0))]
        (Transaction.mk 7 [1, 2] 101 9 1 none) =
      (.ok [Account.mk 2 101 [], Account.mk 0 0 []],
       [(9, (([(7, RResult.ok ())] : SigMap), 0))]) ∧
    (sum_tokens [Account.mk 2 101 [], Account.mk 0 0 []] =
      sum_tokens ((Transaction.mk 7 [1, 2] 101 9 1 none).keys.map (fun k =>
        ((mlookup k [((1 : Nat), Account.mk 3 101 [])]).getD default)))
        - (Transaction.mk 7 [1, 2] 101 9 1 none).fee ∧
    (∀ post, execute_transaction (moveDispatch 1)
        (Transaction.mk 7 [1, 2] 101 9 1 none)
        [Account.mk 2 101 [], Account.mk 0 0 []] = .ok post →
        sum_tokens post = sum_tokens [Account.mk 2 101 [], Account.mk 0 0 []]) ∧
    (∀ post, moveDispatch 1 (Transaction.mk 7 [1, 2] 101 9 1 none)
        [Account.mk 2 101 [], Account.mk 0 0 []] = .ok post →
        verify_all (Transaction.mk 7 [1, 2] 101 9 1 none)
          ([Account.mk 2 101 [], Account.mk 0 0 []].map
            (fun a => (a.program_id, a.tokens))) post = .ok () →
        (execute_transaction (moveDispatch 1)
            (Transaction.mk 7 [1, 2] 101 9 1 none)
            [Account.mk 2 101 [], Account.mk 0 0 []]
          = .error .UnbalancedTransaction ↔
          sum_tokens post ≠
            sum_tokens [Account.mk 2 101 [], Account.mk 0 0 []]))) :=
  ⟨by rfl,
   c1_balance_sum_is_post_fee_sum (moveDispatch 1)
     (Transaction.mk 7 [1, 2] 101 9 1 none)
     [((1 : Nat), Account.mk 3 101 [])] [(9, (([] : SigMap), 0))]
     [(9, (([(7, RResult.ok ())] : SigMap), 0))]
     [Account.mk 2 101 [], Account.mk 0 0 []] (by rfl)⟩

/-- C10: a transaction that passes the load step (fee payer funded, signature
freshly reserved under its registered last_id) but whose execution fails with
error e: the batch result is that error, no account update is committed (the
store is unchanged), the signature stays recorded under the transaction's
last_id with status Err e, and re-submitting the identical transaction - under
any dispatch - is rejected with DuplicateSignature instead of re-executing. -/
theorem c10_failed_execution_not_recommitted (dispatch dispatch2 : Dispatch)
    (st : TPState) (tx : Transaction) (accs : List Account)
    (lsig1 : LastIdSigs) (e : TransactionProcessorError)
    (hload : load_account st.accounts st.last_ids_sigs tx = (.ok accs, lsig1))
    (hexec : execute_transaction dispatch tx accs = .error e) :
    (process_transactions dispatch [tx] st).1 = [.error e] ∧
    (process_transactions dispatch [tx] st).2.accounts = st.accounts ∧
    (∃ m' ts', mlookup tx.last_id
        (process_transactions dispatch [tx] st).2.last_ids_sigs
          = some (m', ts') ∧
      mlookup tx.signature m' = some (.error e)) ∧
    (process_transactions dispatch2 [tx]
        (process_transactions dispatch [tx] st).2).1
      = [.error .DuplicateSignature] := by
  obtain ⟨k0, krest, payer, m, ts, hk, hp, hf, hm, hs, hlsig1, haccs⟩ :=
    load_account_ok_inversion hload
  have hload_list : load_accounts st.accounts st.last_ids_sigs [tx]
      = ([.ok accs], lsig1) := by
    simp [load_accounts, hload]
  have hrun : run_txs dispatch [tx] [.ok accs]
      = ([.error e], [.ok accs]) := by
    simp [run_txs, run_tx, hexec]
  have hstore : store_accounts [tx] [.error e] [.ok accs] st.accounts
      = st.accounts := rfl
  have hm1 : mlookup tx.last_id lsig1
      = some (minsert tx.signature (.ok ()) m, ts) := by
    rw [hlsig1]
    exact mlookup_minsert_self _ _ _
  have hupd : update_transaction_statuses [tx] [.error e] lsig1 =
      minsert tx.last_id
        (minsert tx.signature (.error e) (minsert tx.signature (.ok ()) m), ts)
        lsig1 := by
    simp [update_transaction_statuses, update_signature_status_with_last_id,
      hm1, update_signature_status]
  have hproc : process_transactions dispatch [tx] st =
      ([.error e], TPState.mk st.accounts st.last_ids
        (minsert tx.last_id
          (minsert tx.signature (.error e)
            (minsert tx.signature (.ok ()) m), ts) lsig1)
        st.transaction_count) := by
    unfold process_transactions
    rw [hload_list]
    dsimp only
    rw [hrun]
    dsimp only
    rw [hstore, hupd]
    rfl
  have hm2 : mlookup tx.last_id
      (minsert tx.last_id
        (minsert tx.signature (.error e) (minsert tx.signature (.ok ()) m), ts)
        lsig1)
      = some (minsert tx.signature (.error e)
          (minsert tx.signature (.ok ()) m), ts) :=
    mlookup_minsert_self _ _ _
  have hs2 : mlookup tx.signature
      (minsert tx.signature (.error e) (minsert tx.signature (.ok ()) m))
      = some (.error e) :=
    mlookup_minsert_self _ _ _
  refine ⟨by rw [hproc], by rw [hproc], ?_, ?_⟩
  · exact ⟨minsert tx.signature (.error e) (minsert tx.signature (.ok ()) m),
      ts, by rw [hproc]; exact hm2, hs2⟩
  · rw [hproc]
    have hload2 : load_account st.accounts
        (minsert tx.last_id
          (minsert tx.signature (.error e)
            (minsert tx.signature (.ok ()) m), ts) lsig1) tx
        = (.error .DuplicateSignature,
           minsert tx.last_id
             (minsert tx.signature (.error e)
               (minsert tx.signature (.ok ()) m), ts)
             (minsert tx.last_id
               (minsert tx.signature (.error e)
                 (minsert tx.signature (.ok ()) m), ts) lsig1)) := by
      unfold load_account
      rw [hk]
      dsimp only
      rw [hp]
      dsimp only
      rw [if_neg hf]
      unfold reserve_signature_with_last_id
      rw [hm2]
      dsimp only
      unfold reserve_signature
      rw [hs2]
    have hload_list2 : load_accounts st.accounts
        (minsert tx.last_id
          (minsert tx.signature (.error e)
            (minsert tx.signature (.ok ()) m), ts) lsig1) [tx]
        = ([.error .DuplicateSignature],
           minsert tx.last_id
             (minsert tx.signature (.error e)
               (minsert tx.signature (.ok ()) m), ts)
             (minsert tx.last_id
               (minsert tx.signature (.error e)
                 (minsert tx.signature (.ok ()) m), ts) lsig1)) := by
      simp [load_accounts, hload2]
    unfold process_transactions
    dsimp only
    rw [hload_list2]
    dsimp only
    rfl

/-! Batch-processing support lemmas (lengths, per-index results, domain
preservation and status recording). -/

theorem load_accounts_length (acc : List (Nat × Account)) :
    ∀ (txs : List Transaction) (lsig : LastIdSigs),
    (load_accounts acc lsig txs).1.length = txs.length := by
  intro txs
  induction txs with
  | nil => intro lsig; rfl
  | cons tx0 txs ih =>
    intro lsig
    simp only [load_accounts]
    try dsimp only
    simp only [List.length_cons, ih]

theorem run_txs_length (dispatch : Dispatch) :
    ∀ (txs : List Transaction) (loaded : List (RResult (List Account))),
    loaded.length = txs.length →
    (run_txs dispatch txs loaded).1.length = txs.length := by
  intro txs
  induction txs with
  | nil => intro loaded h; rfl
  | cons tx0 txs ih =>
    intro loaded h
    cases loaded with
    | nil => simp at h
    | cons racc0 loaded' =>
      simp only [List.length_cons, Nat.add_right_cancel_iff] at h
      simp only [run_txs]
      try dsimp only
      simp only [List.length_cons, ih loaded' h]

theorem run_txs_get (dispatch : Dispatch) :
    ∀ (txs : List Transaction) (loaded : List (RResult (List Account)))
      (i : Nat) (tx : Transaction) (racc : RResult (List Account)),
    txs[i]? = some tx → loaded[i]? = some racc →
    (run_txs dispatch txs loaded).1[i]? = some (run_tx dispatch tx racc).1 := by
  intro txs
  induction txs with
  | nil => intro loaded i tx racc h1 _; simp at h1
  | cons tx0 txs ih =>
    intro loaded i tx racc h1 h2
    cases loaded with
    | nil => simp at h2
    | cons racc0 loaded' =>
      cases i with
      | zero =>
        simp only [List.getElem?_cons_zero, Option.some.injEq] at h1 h2
        subst h1
        subst h2
        simp only [run_txs]
        try dsimp only
        rw [List.getElem?_cons_zero]
      | succ i' =>
        simp only [List.getElem?_cons_succ] at h1 h2
        simp only [run_txs]
        try dsimp only
        rw [List.getElem?_cons_succ]
        exact ih loaded' i' tx racc h1 h2

theorem load_accounts_get (acc : List (Nat × Account)) :
    ∀ (txs : List Transaction) (lsig : LastIdSigs) (i : Nat)
      (tx : Transaction),
    txs[i]? = some tx →
    (load_accounts acc lsig txs).1[i]?
      = some (load_account acc (load_accounts acc lsig (txs.take i)).2 tx).1 := by
  intro txs
  induction txs with
  | nil => intro lsig i tx h; simp at h
  | cons tx0 txs ih =>
    intro lsig i tx h
    cases i with
    | zero =>
      simp only [List.getElem?_cons_zero, Option.some.injEq] at h
      subst h
      simp only [List.take_zero, load_accounts]
      try dsimp only
      rw [List.getElem?_cons_zero]
    | succ i' =>
      simp only [List.getElem?_cons_succ] at h
      simp only [List.take_succ_cons, load_accounts]
      try dsimp only
      rw [List.getElem?_cons_succ]
      exact ih (load_account acc lsig tx0).2 i' tx h

theorem reserve_with_domain (lsig : LastIdSigs) (s lid k : Nat) :
    (mlookup k (reserve_signature_with_last_id lsig s lid).2).isSome
      = (mlookup k lsig).isSome := by
  unfold reserve_signature_with_last_id
  cases hm : mlookup lid lsig with
  | none => rfl
  | some p =>
    obtain ⟨m, ts⟩ := p
    try dsimp only
    by_cases hk : k = lid
    · subst hk
      rw [mlookup_minsert_self, hm]
      rfl
    · rw [mlookup_minsert_ne _ _ hk]

theorem load_account_domain (acc : List (Nat × Account)) (lsig : LastIdSigs)
    (tx : Transaction) (k : Nat) :
    (mlookup k (load_account acc lsig tx).2).isSome
      = (mlookup k lsig).isSome := by
  unfold load_account
  cases tx.keys with
  | nil => rfl
  | cons k0 krest =>
    try dsimp only
    cases mlookup k0 acc with
    | none => rfl
    | some payer =>
      try dsimp only
      by_cases hf : payer.tokens < tx.fee
      · rw [if_pos hf]
      · rw [if_neg hf]
        have hres := reserve_with_domain lsig tx.signature tx.last_id k
        rcases hr : reserve_signature_with_last_id lsig tx.signature tx.last_id
          with ⟨r, l'⟩
        rw [hr] at hres
        cases r <;> exact hres

theorem load_accounts_domain (acc : List (Nat × Account)) :
    ∀ (txs : List Transaction) (lsig : LastIdSigs) (k : Nat),
    (mlookup k (load_accounts acc lsig txs).2).isSome
      = (mlookup k lsig).isSome := by
  intro txs
  induction txs with
  | nil => intro lsig k; rfl
  | cons tx0 txs ih =>
    intro lsig k
    simp only [load_accounts]
    try dsimp only
    rw [ih (load_account acc lsig tx0).2 k, load_account_domain]

theorem update_with_domain (lsig : LastIdSigs) (s : Nat) (r : RResult Unit)
    (lid k : Nat) :
    (mlookup k (update_signature_status_with_last_id lsig s r lid)).isSome
      = (mlookup k lsig).isSome := by
  unfold update_signature_status_with_last_id
  cases hm : mlookup lid lsig with
  | none => rfl
  | some p =>
    obtain ⟨m, ts⟩ := p
    try dsimp only
    by_cases hk : k = lid
    · subst hk
      rw [mlookup_minsert_self, hm]
      rfl
    · rw [mlookup_minsert_ne _ _ hk]

theorem update_statuses_preserved :
    ∀ (txs : List Transaction) (rs : List (RResult Unit)) (lsig : LastIdSigs)
      (lid sig : Nat) (v : RResult Unit) (m : SigMap) (ts : Nat),
    mlookup lid lsig = some (m, ts) → mlookup sig m = some v →
    (∀ (j : Nat) (tx' : Transaction), txs[j]? = some tx' →
        ¬(tx'.signature = sig ∧ tx'.last_id = lid)) →
    ∃ m' ts', mlookup lid (update_transaction_statuses txs rs lsig)
        = some (m', ts') ∧ mlookup sig m' = some v := by
  intro txs
  induction txs with
  | nil => intro rs lsig lid sig v m ts h1 h2 _; exact ⟨m, ts, h1, h2⟩
  | cons tx0 txs ih =>
    intro rs lsig lid sig v m ts h1 h2 hdist
    cases rs with
    | nil => exact ⟨m, ts, h1, h2⟩
    | cons r0 rs' =>
      simp only [update_transaction_statuses]
      have h0 : ¬(tx0.signature = sig ∧ tx0.last_id = lid) :=
        hdist 0 tx0 (by rw [List.getElem?_cons_zero])
      have hshift : ∀ (j : Nat) (tx' : Transaction), txs[j]? = some tx' →
          ¬(tx'.signature = sig ∧ tx'.last_id = lid) :=
        fun j tx' hj => hdist (j + 1) tx'
          (by rw [List.getElem?_cons_succ]; exact hj)
      have hstep : ∃ m1 ts1,
          mlookup lid (update_signature_status_with_last_id lsig
            tx0.signature r0 tx0.last_id) = some (m1, ts1) ∧
          mlookup sig m1 = some v := by
        unfold update_signature_status_with_last_id
        cases hm' : mlookup tx0.last_id lsig with
        | none => exact ⟨m, ts, h1, h2⟩
        | some p =>
          obtain ⟨mm, tss⟩ := p
          dsimp only
          by_cases hl : tx0.last_id = lid
          · rw [hl] at hm'
            have heq : mm = m ∧ tss = ts := by
              have := hm'.symm.trans h1
              injection this with h'
              exact ⟨congrArg Prod.fst h', congrArg Prod.snd h'⟩
            refine ⟨update_signature_status mm tx0.signature r0, tss, ?_, ?_⟩
            · rw [hl]
              exact mlookup_minsert_self _ _ _
            · unfold update_signature_status
              have hsig : sig ≠ tx0.signature :=
                fun hh => h0 ⟨hh.symm, hl⟩
              rw [mlookup_minsert_ne _ _ hsig, heq.1]
              exact h2
          · refine ⟨m, ts, ?_, h2⟩
            rw [mlookup_minsert_ne _ _ (fun hh => hl hh.symm)]
            exact h1
      obtain ⟨m1, ts1, hm1, hs1⟩ := hstep
      exact ih rs' _ lid sig v m1 ts1 hm1 hs1 hshift

theorem update_statuses_set :
    ∀ (txs : List Transaction) (rs : List (RResult Unit)) (lsig : LastIdSigs)
      (i : Nat) (tx : Transaction) (r : RResult Unit),
    txs[i]? = some tx → rs[i]? = some r →
    (mlookup tx.last_id lsig).isSome = true →
    (∀ (j : Nat) (tx' : Transaction), i < j → txs[j]? = some tx' →
        ¬(tx'.signature = tx.signature ∧ tx'.last_id = tx.last_id)) →
    ∃ m' ts', mlookup tx.last_id (update_transaction_statuses txs rs lsig)
        = some (m', ts') ∧ mlookup tx.signature m' = some r := by
  intro txs
  induction txs with
  | nil => intro rs lsig i tx r h1; simp at h1
  | cons tx0 txs ih =>
    intro rs lsig i tx r h1 h2 hsome hdist
    cases rs with
    | nil => simp at h2
    | cons r0 rs' =>
      simp only [update_transaction_statuses]
      cases i with
      | zero =>
        simp only [List.getElem?_cons_zero, Option.some.injEq] at h1 h2
        subst h1
        subst h2
        rw [Option.isSome_iff_exists] at hsome
        obtain ⟨p, hp⟩ := hsome
        obtain ⟨m0, ts0⟩ := p
        have hupd : update_signature_status_with_last_id lsig
            tx0.signature r0 tx0.last_id
            = minsert tx0.last_id (minsert tx0.signature r0 m0, ts0) lsig := by
          unfold update_signature_status_with_last_id
          rw [hp]
          rfl
        rw [hupd]
        exact update_statuses_preserved txs rs' _ tx0.last_id tx0.signature r0
          (minsert tx0.signature r0 m0) ts0 (mlookup_minsert_self _ _ _)
          (mlookup_minsert_self _ _ _)
          (fun j tx' hj => hdist (j + 1) tx' (Nat.succ_pos j)
            (by rw [List.getElem?_cons_succ]; exact hj))
      | succ i' =>
        simp only [List.getElem?_cons_succ] at h1 h2
        have hsome1 : (mlookup tx.last_id
            (update_signature_status_with_last_id lsig tx0.signature r0
              tx0.last_id)).isSome = true := by
          rw [update_with_domain]
          exact hsome
        exact ih rs' _ i' tx r h1 h2 hsome1
          (fun j tx' hj hjx => hdist (j + 1) tx' (Nat.succ_lt_succ hj)
            (by rw [List.getElem?_cons_succ]; exact hjx))

/-- Closed instance of c10_failed_execution_not_recommitted: account 1 funded
with 5 tokens, tip 9 registered, fee 1; program id 42 is unknown, so execution
fails with UnknownContractId after a successful load; the store is unchanged,
the status is recorded, and resubmission yields DuplicateSignature. -/
theorem c10_witness :
    load_account [((1 : Nat), Account.mk 5 101 [])] [(9, (([] : SigMap), 0))]
        (Transaction.mk 7 [1] 42 9 1 none)
      = (.ok [Account.mk 4 101 []],
         [(9, (([(7, RResult.ok ())] : SigMap), 0))]) ∧
    execute_transaction emptyDispatch (Transaction.mk 7 [1] 42 9 1 none)
        [Account.mk 4 101 []] = .error .UnknownContractId ∧
    ((process_transactions emptyDispatch [Transaction.mk 7 [1] 42 9 1 none]
        ⟨[(1, Account.mk 5 101 [])], [9], [(9, (([] : SigMap), 0))], 0⟩).1
      = [.error .UnknownContractId] ∧
    (process_transactions emptyDispatch [Transaction.mk 7 [1] 42 9 1 none]
        ⟨[(1, Account.mk 5 101 [])], [9], [(9, (([] : SigMap), 0))], 0⟩).2.accounts
      = [(1, Account.mk 5 101 [])] ∧
    (∃ m' ts', mlookup 9
        (process_transactions emptyDispatch [Transaction.mk 7 [1] 42 9 1 none]
          ⟨[(1, Account.mk 5 101 [])], [9],
           [(9, (([] : SigMap), 0))], 0⟩).2.last_ids_sigs = some (m', ts') ∧
      mlookup 7 m' = some (.error .UnknownContractId)) ∧
    (process_transactions emptyDispatch [Transaction.mk 7 [1] 42 9 1 none]
        (process_transactions emptyDispatch [Transaction.mk 7 [1] 42 9 1 none]
          ⟨[(1, Account.mk 5 101 [])], [9], [(9, (([] : SigMap), 0))], 0⟩).2).1
      = [.error .DuplicateSignature]) :=
  ⟨by rfl, by rfl,
   c10_failed_execution_not_recommitted emptyDispatch emptyDispatch
     ⟨[(1, Account.mk 5 101 [])], [9], [(9, (([] : SigMap), 0))], 0⟩
     (Transaction.mk 7 [1] 42 9 1 none) [Account.mk 4 101 []]
     [(9, (([(7, RResult.ok ())] : SigMap), 0))] .UnknownContractId
     (by rfl) (by rfl)⟩

/-- Refutation of C1 as stated: a committed (Ok) system Move with fee 1 whose
post-commit balances over the referenced accounts sum to 2, while the sum of
the referenced accounts' balances recorded BEFORE the fee debit is 3: the
balance sum is not preserved relative to the pre-fee snapshot, because the
source computes pre_total only after load_account has debited the fee. -/
theorem c1_counterexample :
    (process_transactions (moveDispatch 1)
        [Transaction.mk 7 [1, 2] 101 9 1 none]
        ⟨[(1, Account.mk 3 101 [])], [9], [(9, (([] : SigMap), 0))], 0⟩).1
      = [RResult.ok ()] ∧
    sum_tokens (([1, 2] : List Nat).map (fun k =>
        (mlookup k (process_transactions (moveDispatch 1)
          [Transaction.mk 7 [1, 2] 101 9 1 none]
          ⟨[(1, Account.mk 3 101 [])], [9],
           [(9, (([] : SigMap), 0))], 0⟩).2.accounts).getD default))
      ≠
      sum_tokens (([1, 2] : List Nat).map (fun k =>
        (mlookup k [((1 : Nat), Account.mk 3 101 [])]).getD default)) := by
  decide


/-- C6 (amended): process_transactions returns exactly one result per input
transaction in input order; each transaction's result is determined by the
pre-batch account map and the signature reservations made by the load steps of
the transactions before it (never by an earlier transaction's success or
failure); for a transaction whose last_id is registered in the ring, its
result is recorded in the signature-status map under that last_id (the last
result standing when several batch members share signature and last_id); and
transaction_count grows by exactly the number of Ok results. -/
theorem c6_process_transactions_batch (dispatch : Dispatch)
    (txs : List Transaction) (st : TPState) :
    (process_transactions dispatch txs st).1.length = txs.length ∧
    (process_transactions dispatch txs st).2.transaction_count
      = st.transaction_count
        + countOk (process_transactions dispatch txs st).1 ∧
    (∀ (i : Nat) (tx : Transaction), txs[i]? = some tx →
        (process_transactions dispatch txs st).1[i]?
          = some ((run_tx dispatch tx
              (load_account st.accounts
                (load_accounts st.accounts st.last_ids_sigs (txs.take i)).2
                tx).1).1)) ∧
    (∀ (i : Nat) (tx : Transaction) (r : RResult Unit) (m0 : SigMap)
        (ts0 : Nat),
        txs[i]? = some tx →
        (process_transactions dispatch txs st).1[i]? = some r →
        mlookup tx.last_id st.last_ids_sigs = some (m0, ts0) →
        (∀ (j : Nat) (tx' : Transaction), i < j → txs[j]? = some tx' →
            ¬(tx'.signature = tx.signature ∧ tx'.last_id = tx.last_id)) →
        ∃ m' ts', mlookup tx.last_id
            (process_transactions dispatch txs st).2.last_ids_sigs
              = some (m', ts') ∧
          mlookup tx.signature m' = some r) := by
  have hres : (process_transactions dispatch txs st).1
      = (run_txs dispatch txs
          (load_accounts st.accounts st.last_ids_sigs txs).1).1 := rfl
  have hlsig : (process_transactions dispatch txs st).2.last_ids_sigs
      = update_transaction_statuses txs
          (run_txs dispatch txs
            (load_accounts st.accounts st.last_ids_sigs txs).1).1
          (load_accounts st.accounts st.last_ids_sigs txs).2 := rfl
  refine ⟨?_, rfl, ?_, ?_⟩
  · rw [hres]
    exact run_txs_length dispatch txs _
      (load_accounts_length st.accounts txs st.last_ids_sigs)
  · intro i tx h
    rw [hres]
    exact run_txs_get dispatch txs _ i tx _ h
      (load_accounts_get st.accounts txs st.last_ids_sigs i tx h)
  · intro i tx r m0 ts0 h1 h2 h3 hdist
    rw [hres] at h2
    rw [hlsig]
    have hsome : (mlookup tx.last_id
        (load_accounts st.accounts st.last_ids_sigs txs).2).isSome = true := by
      rw [load_accounts_domain, h3]
      rfl
    exact update_statuses_set txs _ _ i tx r h1 h2 hsome hdist

/-- Refutation of C6 as stated: a batch whose single transaction carries an
unregistered last_id (99) produces the result LastIdNotFound, yet nothing is
recorded in the signature-status map - the map stays empty and the signature's
status reads SignatureNotFound - because update_signature_status_with_last_id
is a no-op for an unregistered last_id. -/
theorem c6_counterexample :
    (process_transactions emptyDispatch [Transaction.mk 7 [1] 101 99 0 none]
        ⟨[(1, Account.mk 5 101 [])], [], [], 0⟩).1
      = [.error .LastIdNotFound] ∧
    (process_transactions emptyDispatch [Transaction.mk 7 [1] 101 99 0 none]
        ⟨[(1, Account.mk 5 101 [])], [], [], 0⟩).2.last_ids_sigs = [] ∧
    get_signature_status (process_transactions emptyDispatch
        [Transaction.mk 7 [1] 101 99 0 none]
        ⟨[(1, Account.mk 5 101 [])], [], [], 0⟩).2.last_ids_sigs 7
      = .error .SignatureNotFound := by
  decide

end Hypercube
